import Mathlib

/-!
Formal model of the Capture One batch-relink script (`c1-batch-relink.py`).

Paths and other strings are modelled as `List Char` (the character list of
the Python `str`; for a `pathlib.Path` we model the `as_posix()` string).
The regular expression `paths_ignore` of the script,

  `(.*(\.apdisk|\.DS_Store|\.VolumeIcon.icns|\.plist|\.xml|\.[xX][mM][pP])$|.*(\.Spotlight-V100/|\.fseventsd/|\.mpaur2).*)`

used via `re.match`, is modelled by its two alternatives: the first matches
exactly the strings ending with one of the suffix alternatives (the `.` of
`\.VolumeIcon.icns` is an unescaped wildcard matching any character, and
`[xX][mM][pP]` matches `xmp` in any letter case); the second matches exactly
the strings containing one of the three literal substrings.
-/

set_option autoImplicit false

/-- `startsL pat s` is true iff the character list `s` begins with `pat`. -/
def startsL : List Char → List Char → Bool
  | [], _ => true
  | _ :: _, [] => false
  | a :: as, b :: bs => a == b && startsL as bs

/-- `endsL pat s` is true iff `s` ends with `pat` (regex `.*pat$`). -/
def endsL (pat s : List Char) : Bool :=
  startsL pat.reverse s.reverse

/-- `hasSub pat s` is true iff `pat` occurs as a contiguous substring of `s`
(regex `.*pat.*`). -/
def hasSub (pat : List Char) : List Char → Bool
  | [] => startsL pat []
  | b :: bs => startsL pat (b :: bs) || hasSub pat bs

/-- `charIn c a b` is true iff `c` is one of the two characters `a`, `b`. -/
def charIn (c a b : Char) : Bool := c == a || c == b

/-- The regex fragment `\.[xX][mM][pP]$` checked on a reversed string: the
original string ends with a dot followed by `xmp` in any letter case. -/
def xmpRev : List Char → Bool
  | c1 :: c2 :: c3 :: c4 :: _ =>
    charIn c1 'p' 'P' && charIn c2 'm' 'M' && charIn c3 'x' 'X' && c4 == '.'
  | _ => false

/-- The string ends with `.` then `xmp` in any letter case. -/
def xmpSuffix (p : List Char) : Bool := xmpRev p.reverse

/-- The regex fragment `\.VolumeIcon.icns$` checked on a reversed string; the
middle `.` of the pattern is an unescaped wildcard. -/
def volumeIconRev : List Char → Bool
  | 's' :: 'n' :: 'c' :: 'i' :: _ :: 'n' :: 'o' :: 'c' :: 'I' :: 'e' :: 'm' :: 'u' :: 'l' :: 'o' :: 'V' :: '.' :: _ => true
  | _ => false

/-- The string ends with `.VolumeIcon` then any character then `icns`. -/
def volumeIconSuffix (p : List Char) : Bool := volumeIconRev p.reverse

/-- Model of the script's `paths_ignore` regular expression applied with
`re.match` to a path's `as_posix()` string. -/
def paths_ignore (p : List Char) : Bool :=
  endsL ".apdisk".data p || endsL ".DS_Store".data p || volumeIconSuffix p
    || endsL ".plist".data p || endsL ".xml".data p || xmpSuffix p
    || hasSub ".Spotlight-V100/".data p || hasSub ".fseventsd/".data p
    || hasSub ".mpaur2".data p

/-- `pathlib.Path.name`: the final path component, i.e. the characters after
the last `/` of the posix path string. -/
def fileName (p : List Char) : List Char :=
  (p.reverse.takeWhile (fun c => c != '/')).reverse

/-- Model of the script's `PhotoNameSizeKey` used as a dictionary key: by
`__hash__`/`__eq__` two keys are interchangeable exactly when `name` and
`size` agree, so the key is the pair of both. -/
structure PhotoNameSizeKey where
  name : List Char
  size : Nat
  deriving DecidableEq

/-- One entry yielded by `path.rglob("*")` during the directory walk:
its full posix path string, whether `is_file()` holds, and its on-disk
byte size `stat().st_size`. -/
structure FSEntry where
  path : List Char
  isFile : Bool
  size : Nat
  deriving DecidableEq

/-- The key `PhotoNameSizeKey(f)` computed for a walked file `f`: the
constructor is called without an explicit size, so `self.size` is taken from
`stat().st_size` and `self.name` from `path.name`. -/
def diskKey (f : FSEntry) : PhotoNameSizeKey :=
  ⟨fileName f.path, f.size⟩

/-- Python dictionary lookup on the association list representing the
script's `ret` dictionary (keys are kept unique by construction). -/
def lookupKey (k : PhotoNameSizeKey) : List (PhotoNameSizeKey × List Char) → Option (List Char)
  | [] => none
  | (k2, p) :: rest => if k2 = k then some p else lookupKey k rest

/-- The `ValueError` message raised on a duplicate key:
`"Files {} and {} found with same size and name".format(f.as_posix(), ret[key].as_posix())`. -/
def dupMessage (newPath oldPath : List Char) : List Char :=
  "Files ".data ++ newPath ++ " and ".data ++ oldPath
    ++ " found with same size and name".data

/-- The loop body of `generate_directory_dict`, folded over the list of
entries yielded by `rglob` in traversal order, carrying the dictionary built
so far.  A raised `ValueError` is modelled by `Except.error` carrying the
message. -/
def genDict : List (PhotoNameSizeKey × List Char) → List FSEntry →
    Except (List Char) (List (PhotoNameSizeKey × List Char))
  | ret, [] => .ok ret
  | ret, f :: fs =>
    if f.isFile && !paths_ignore f.path then
      match lookupKey (diskKey f) ret with
      | none => genDict (ret ++ [(diskKey f, f.path)]) fs
      | some old => .error (dupMessage f.path old)
    else
      genDict ret fs

/-- `generate_directory_dict(path)`: builds the dictionary from the stream of
walked entries, starting from the empty dictionary `ret = { }`. -/
def generate_directory_dict (files : List FSEntry) :
    Except (List Char) (List (PhotoNameSizeKey × List Char)) :=
  genDict [] files

/-- The filter deciding which walked entries reach the dictionary:
`f.is_file() and not paths_ignore.match(f.as_posix())`. -/
def nonIgnoredFile (f : FSEntry) : Bool :=
  f.isFile && !paths_ignore f.path

/-- `ctypes.c_int32(x).value`: truncation of a Python integer to a signed
32-bit value (the bit pattern of `x mod 2^32` read as two's complement). -/
def c_int32_value (x : Int) : Int :=
  if x % 4294967296 < 2147483648 then x % 4294967296
  else x % 4294967296 - 4294967296

/-- `ctypes.c_uint32(x).value`: truncation of a Python integer to an unsigned
32-bit value, i.e. `x mod 2^32`. -/
def c_uint32_value (x : Int) : Nat :=
  (x % 4294967296).toNat

/-- One catalog image handle as the script reads it.  `statSize` models the
file system at the image's recorded original path: `some t` when
`path.stat()` succeeds reporting size `t` (so `path.exists()` is true), and
`none` when the path is missing (`stat` raises `FileNotFoundError`,
`exists()` is false).  `file_size_raw` is the integer delivered by the apple
events bridge for the `file_size` property. -/
structure C1Image where
  path : List Char
  statSize : Option Nat
  file_size_raw : Int
  name : List Char
  id : List Char
  deriving DecidableEq

/-- `C1Image.filesize`: the script's corrected size
`ctypes.c_uint32(ctypes.c_int32(c1_filesize).value).value`. -/
def C1Image.filesize (img : C1Image) : Nat :=
  c_uint32_value (c_int32_value img.file_size_raw)

/-- `image.path.exists()`. -/
def C1Image.path_exists (img : C1Image) : Bool :=
  img.statSize.isSome

/-- The constructor `PhotoNameSizeKey(path, size)`.  The body runs
`if size: self.size = size else: self.size = path.stat().st_size`, so a
`size` argument of `None` or `0` is discarded and the path is statted;
`none` models the `FileNotFoundError` raised by `stat` on a missing path. -/
def mkPhotoNameSizeKey (path : List Char) (statSize : Option Nat)
    (size : Option Nat) : Option PhotoNameSizeKey :=
  match size with
  | some s =>
    if s != 0 then some ⟨fileName path, s⟩
    else statSize.map fun t => ⟨fileName path, t⟩
  | none => statSize.map fun t => ⟨fileName path, t⟩

/-- `C1Image.photo_name_size_key()`:
`PhotoNameSizeKey(self.path, size=int(self.filesize))`. -/
def C1Image.photo_name_size_key (img : C1Image) : Option PhotoNameSizeKey :=
  mkPhotoNameSizeKey img.path img.statSize (some (C1Image.filesize img))

/-- The key computed for a walked file agrees with the constructor model:
`generate_directory_dict` calls `PhotoNameSizeKey(f)` with no size argument
on a file that was just enumerated, so its `stat` succeeds. -/
theorem diskKey_eq_mkPhotoNameSizeKey (f : FSEntry) :
    mkPhotoNameSizeKey f.path (some f.size) none = some (diskKey f) := rfl

/-- The command line flags of the script that the reconciliation loop and the
iterator selection consult. -/
structure Args where
  progress : Bool
  progressGui : Bool
  verbose : Bool
  dryRun : Bool
  deriving DecidableEq

/-- What one pass of the loop body produces for one image: the log line it
prints (if any) and the list of relink calls it issues (in call order). -/
structure EntryResult where
  logLine : Option (List Char)
  relinks : List (List Char)
  deriving DecidableEq

/-- The `log_message` and `log_nonverbose` pair the loop body computes for an
image whose key resolved to `key`, with `matched_image = lookupKey key dict`. -/
def entryLogParts (dict : List (PhotoNameSizeKey × List Char)) (img : C1Image)
    (key : PhotoNameSizeKey) : List Char × Bool :=
  if C1Image.path_exists img then
    ("\tSKIPPING - relinking not necessary".data, false)
  else
    match lookupKey key dict with
    | some m => ("\tRELINKED to \"".data ++ m ++ "\"".data, false)
    | none =>
      ("\tNO MATCHING IMAGE FOUND (size ".data
        ++ (Nat.repr (C1Image.filesize img)).data ++ " Bytes)".data, true)

/-- The log line the loop body prints for the entry, if any:
`log("{} (ID {}){}".format(image.name, image.id, log_message))`, guarded by
`if arguments["--verbose"] or log_nonverbose == True`. -/
def entryLogLine (args : Args) (dict : List (PhotoNameSizeKey × List Char))
    (img : C1Image) (key : PhotoNameSizeKey) : Option (List Char) :=
  if args.verbose || (entryLogParts dict img key).2 then
    some (img.name ++ " (ID ".data ++ img.id ++ ")".data
      ++ (entryLogParts dict img key).1)
  else none

/-- The relink calls the loop body issues for the entry:
`if not image.path.exists() and matched_image and not arguments["--dry-run"]:
image.relink(matched_image)`. -/
def entryRelinks (args : Args) (dict : List (PhotoNameSizeKey × List Char))
    (img : C1Image) (key : PhotoNameSizeKey) : List (List Char) :=
  match lookupKey key dict with
  | some m => if !C1Image.path_exists img && !args.dryRun then [m] else []
  | none => []

/-- One iteration of the script's main loop for the image `img` against the
dictionary `dict` of the new location.  Returns `none` when the iteration
raises before completing: computing `image.photo_name_size_key()` stats the
original path when the corrected size is `0`, and that raises
`FileNotFoundError` if the path is missing, aborting the run. -/
def processImage (args : Args) (dict : List (PhotoNameSizeKey × List Char))
    (img : C1Image) : Option EntryResult :=
  match C1Image.photo_name_size_key img with
  | none => none
  | some key => some ⟨entryLogLine args dict img key, entryRelinks args dict img key⟩

/-- The whole reconciliation pass over the images in provider order: the
entry results produced before any abort, and whether the pass aborted with an
uncaught exception. -/
def runLoop (args : Args) (dict : List (PhotoNameSizeKey × List Char)) :
    List C1Image → List EntryResult × Bool
  | [] => ([], false)
  | img :: rest =>
    match processImage args dict img with
    | none => ([], true)
    | some r =>
      let t := runLoop args dict rest
      (r :: t.1, t.2)

/-- All relink invocations issued by a list of entry results, in order. -/
def relinkCalls (rs : List EntryResult) : List (List Char) :=
  (rs.map EntryResult.relinks).flatten

/-- The progress indicator the script wraps around the image list. -/
inductive ProgressIterator where
  | textual
  | gui
  | plain
  deriving DecidableEq

/-- The iterator selection of the script:
`if arguments["--progress"]: ... tqdm.tqdm ... elif arguments["--progress-gui"]:
... tqdm.tqdm_gui ... else: images`. -/
def image_iterator (args : Args) : ProgressIterator :=
  if args.progress then .textual
  else if args.progressGui then .gui
  else .plain

theorem startsL_self_append (l r : List Char) : startsL l (l ++ r) = true := by
  induction l with
  | nil => rfl
  | cons a as ih => simp [startsL, ih]

theorem hasSub_of_startsL {pat l : List Char} (h : startsL pat l = true) :
    hasSub pat l = true := by
  cases l with
  | nil => exact h
  | cons b bs => simp [hasSub, h]

theorem hasSub_sandwich (a pat b : List Char) :
    hasSub pat (a ++ (pat ++ b)) = true := by
  induction a with
  | nil => exact hasSub_of_startsL (startsL_self_append pat b)
  | cons x xs ih => simp [hasSub, ih]

theorem endsL_append (pat t : List Char) : endsL pat (t ++ pat) = true := by
  unfold endsL
  rw [List.reverse_append]
  exact startsL_self_append _ _

/-- Every path string is its directory part followed by its `fileName`. -/
theorem fileName_dec (p : List Char) :
    p = (p.reverse.dropWhile (fun c => c != '/')).reverse ++ fileName p := by
  have h := List.takeWhile_append_dropWhile (p := fun c => c != '/') (l := p.reverse)
  conv_lhs => rw [← List.reverse_reverse p, ← h]
  rw [List.reverse_append]
  rfl

theorem xmpRev_append {l : List Char} (r : List Char) (h : xmpRev l = true) :
    xmpRev (l ++ r) = true := by
  match l with
  | [] => simp [xmpRev] at h
  | [c1] => simp [xmpRev] at h
  | [c1, c2] => simp [xmpRev] at h
  | [c1, c2, c3] => simp [xmpRev] at h
  | c1 :: c2 :: c3 :: c4 :: rest => exact h

theorem xmpSuffix_append (t s : List Char) (h : xmpSuffix s = true) :
    xmpSuffix (t ++ s) = true := by
  unfold xmpSuffix at h ⊢
  rw [List.reverse_append]
  exact xmpRev_append _ h

theorem paths_ignore_of_dsstore {p : List Char}
    (h : fileName p = ".DS_Store".data) : paths_ignore p = true := by
  have hd := fileName_dec p
  rw [h] at hd
  have : endsL ".DS_Store".data p = true := by
    rw [hd]; exact endsL_append _ _
  simp [paths_ignore, this]

theorem paths_ignore_of_xmp {p : List Char}
    (h : xmpSuffix (fileName p) = true) : paths_ignore p = true := by
  have hd := fileName_dec p
  have : xmpSuffix p = true := by
    rw [hd]; exact xmpSuffix_append _ _ h
  simp [paths_ignore, this]

theorem paths_ignore_of_spotlight {p : List Char}
    (h : hasSub ".Spotlight-V100/".data p = true) : paths_ignore p = true := by
  simp [paths_ignore, h]

theorem lookupKey_append_left {k : PhotoNameSizeKey} {r1 : List (PhotoNameSizeKey × List Char)}
    {p : List Char} (r2 : List (PhotoNameSizeKey × List Char))
    (h : lookupKey k r1 = some p) : lookupKey k (r1 ++ r2) = some p := by
  induction r1 with
  | nil => simp [lookupKey] at h
  | cons e rest ih =>
    rw [List.cons_append]
    unfold lookupKey at h ⊢
    by_cases he : e.1 = k
    · simpa [he] using h
    · simp only [he, if_false] at h ⊢
      exact ih h

theorem lookupKey_append_self {k : PhotoNameSizeKey} {r1 : List (PhotoNameSizeKey × List Char)}
    (q : List Char) (h : lookupKey k r1 = none) :
    lookupKey k (r1 ++ [(k, q)]) = some q := by
  induction r1 with
  | nil => simp [lookupKey]
  | cons e rest ih =>
    rw [List.cons_append]
    unfold lookupKey at h ⊢
    by_cases he : e.1 = k
    · simp [he] at h
    · simp only [he, if_false] at h ⊢
      exact ih h

theorem lookupKey_append_ne {k k2 : PhotoNameSizeKey} {r1 : List (PhotoNameSizeKey × List Char)}
    (q : List Char) (h : lookupKey k r1 = none) (hne : k2 ≠ k) :
    lookupKey k (r1 ++ [(k2, q)]) = none := by
  induction r1 with
  | nil => simp [lookupKey, hne]
  | cons e rest ih =>
    rw [List.cons_append]
    unfold lookupKey at h ⊢
    by_cases he : e.1 = k
    · simp [he] at h
    · simp only [he, if_false] at h ⊢
      exact ih h

theorem lookupKey_mem {k : PhotoNameSizeKey} {r : List (PhotoNameSizeKey × List Char)}
    {p : List Char} (h : lookupKey k r = some p) : (k, p) ∈ r := by
  induction r with
  | nil => simp [lookupKey] at h
  | cons e rest ih =>
    unfold lookupKey at h
    by_cases he : e.1 = k
    · simp only [he, if_true] at h
      have hp : e.2 = p := by injection h
      have hke : (k, p) = e := by
        cases e
        simp only [Prod.mk.injEq]
        exact ⟨he.symm, hp.symm⟩
      rw [hke]
      exact List.mem_cons_self _ _
    · simp only [he, if_false] at h
      exact List.mem_cons_of_mem _ (ih h)

theorem genDict_cons_skip {x : FSEntry} {fs : List FSEntry}
    {ret : List (PhotoNameSizeKey × List Char)} (hx : nonIgnoredFile x = false) :
    genDict ret (x :: fs) = genDict ret fs := by
  have hx' : (x.isFile && !paths_ignore x.path) = false := hx
  simp only [genDict, hx']
  rfl

theorem genDict_cons_new {x : FSEntry} {fs : List FSEntry}
    {ret : List (PhotoNameSizeKey × List Char)} (hx : nonIgnoredFile x = true)
    (hl : lookupKey (diskKey x) ret = none) :
    genDict ret (x :: fs) = genDict (ret ++ [(diskKey x, x.path)]) fs := by
  have hx' : (x.isFile && !paths_ignore x.path) = true := hx
  simp only [genDict, hx', if_true, hl]

theorem genDict_cons_dup {x : FSEntry} {fs : List FSEntry}
    {ret : List (PhotoNameSizeKey × List Char)} {old : List Char}
    (hx : nonIgnoredFile x = true)
    (hl : lookupKey (diskKey x) ret = some old) :
    genDict ret (x :: fs) = .error (dupMessage x.path old) := by
  have hx' : (x.isFile && !paths_ignore x.path) = true := hx
  simp only [genDict, hx', if_true, hl]

/-- If some key already in the dictionary is the key of a later non-ignored
file, the build is bound to raise. -/
theorem genDict_error_of_present (k : PhotoNameSizeKey) :
    ∀ (files : List FSEntry) (ret : List (PhotoNameSizeKey × List Char)) (p : List Char),
      lookupKey k ret = some p →
      (∃ h0, h0 ∈ files ∧ nonIgnoredFile h0 = true ∧ diskKey h0 = k) →
      ∃ msg, genDict ret files = .error msg := by
  intro files
  induction files with
  | nil =>
    intro ret p _ hw
    rcases hw with ⟨h0, hmem, _⟩
    simp at hmem
  | cons x xs ih =>
    intro ret p hl hw
    rcases hw with ⟨h0, hmem, hni, hdk⟩
    by_cases hx : nonIgnoredFile x = true
    · rcases hcase : lookupKey (diskKey x) ret with _ | old
      · rcases List.mem_cons.mp hmem with rfl | hmem'
        · rw [hdk] at hcase
          rw [hcase] at hl
          cases hl
        · have hl' := lookupKey_append_left [(diskKey x, x.path)] hl
          rcases ih (ret ++ [(diskKey x, x.path)]) p hl' ⟨h0, hmem', hni, hdk⟩ with ⟨msg, hmsg⟩
          exact ⟨msg, by rw [genDict_cons_new hx hcase]; exact hmsg⟩
      · exact ⟨dupMessage x.path old, genDict_cons_dup hx hcase⟩
    · have hx' : nonIgnoredFile x = false := by
        cases hb : nonIgnoredFile x
        · rfl
        · exact absurd hb hx
      rcases List.mem_cons.mp hmem with rfl | hmem'
      · rw [hni] at hx'
        cases hx'
      · rcases ih ret p hl ⟨h0, hmem', hni, hdk⟩ with ⟨msg, hmsg⟩
        exact ⟨msg, by rw [genDict_cons_skip hx']; exact hmsg⟩

theorem genDict_duplicate_error (mid post : List FSEntry) (f g : FSEntry)
    (hf : nonIgnoredFile f = true) (hg : nonIgnoredFile g = true)
    (hkey : diskKey f = diskKey g) :
    ∀ (pre : List FSEntry) (ret : List (PhotoNameSizeKey × List Char)),
      ∃ msg, genDict ret (pre ++ f :: (mid ++ g :: post)) = .error msg := by
  intro pre
  induction pre with
  | nil =>
    intro ret
    rcases hcase : lookupKey (diskKey f) ret with _ | old
    · have hl' := lookupKey_append_self f.path hcase
      have hmemg : g ∈ mid ++ g :: post :=
        List.mem_append_right _ (List.mem_cons_self _ _)
      rcases genDict_error_of_present (diskKey f) (mid ++ g :: post)
          (ret ++ [(diskKey f, f.path)]) f.path hl' ⟨g, hmemg, hg, hkey.symm⟩ with ⟨msg, hmsg⟩
      exact ⟨msg, by rw [List.nil_append, genDict_cons_new hf hcase]; exact hmsg⟩
    · exact ⟨dupMessage f.path old, by rw [List.nil_append]; exact genDict_cons_dup hf hcase⟩
  | cons x xs ih =>
    intro ret
    by_cases hx : nonIgnoredFile x = true
    · rcases hcase : lookupKey (diskKey x) ret with _ | old
      · rcases ih (ret ++ [(diskKey x, x.path)]) with ⟨msg, hmsg⟩
        exact ⟨msg, by rw [List.cons_append, genDict_cons_new hx hcase]; exact hmsg⟩
      · exact ⟨dupMessage x.path old, by rw [List.cons_append]; exact genDict_cons_dup hx hcase⟩
    · have hx' : nonIgnoredFile x = false := by
        cases hb : nonIgnoredFile x
        · rfl
        · exact absurd hb hx
      rcases ih ret with ⟨msg, hmsg⟩
      exact ⟨msg, by rw [List.cons_append, genDict_cons_skip hx']; exact hmsg⟩

/-- C1: if the walked tree contains two distinct non-ignored regular files
with equal `(name, size)` keys — at any two positions of the traversal, hence
at any depths — `generate_directory_dict` raises the duplicate-key
`ValueError` and returns no mapping. -/
theorem c1_duplicate_key_aborts (pre mid post : List FSEntry) (f g : FSEntry)
    (hf1 : f.isFile = true) (hf2 : paths_ignore f.path = false)
    (hg1 : g.isFile = true) (hg2 : paths_ignore g.path = false)
    (_hpath : f.path ≠ g.path) (hkey : diskKey f = diskKey g) :
    ∃ msg, generate_directory_dict (pre ++ f :: (mid ++ g :: post)) = Except.error msg := by
  have hf : nonIgnoredFile f = true := by simp [nonIgnoredFile, hf1, hf2]
  have hg : nonIgnoredFile g = true := by simp [nonIgnoredFile, hg1, hg2]
  exact genDict_duplicate_error mid post f g hf hg hkey pre []

/-- Witness for C1 at a concrete tree: `d1/x.cr3` and `d2/deep/x.cr3`, both
of size 5, sit at different depths and collide. -/
theorem c1_witness :
    ∃ msg, generate_directory_dict
        ([] ++ (⟨"d1/x.cr3".data, true, 5⟩ : FSEntry) ::
          ([] ++ (⟨"d2/deep/x.cr3".data, true, 5⟩ : FSEntry) :: []))
      = Except.error msg :=
  c1_duplicate_key_aborts [] [] [] ⟨"d1/x.cr3".data, true, 5⟩ ⟨"d2/deep/x.cr3".data, true, 5⟩
    (by decide) (by decide) (by decide) (by decide) (by decide) (by decide)

/-- Building from a state whose keys are fresh for every remaining
non-ignored file succeeds and adds exactly one entry per such file. -/
theorem genDict_ok_count :
    ∀ (files : List FSEntry) (ret : List (PhotoNameSizeKey × List Char)),
      (∀ f, f ∈ files → nonIgnoredFile f = true → lookupKey (diskKey f) ret = none) →
      (files.filter nonIgnoredFile).Pairwise (fun a b => diskKey a ≠ diskKey b) →
      ∃ d, genDict ret files = .ok d ∧
        d.length = ret.length + (files.filter nonIgnoredFile).length := by
  intro files
  induction files with
  | nil =>
    intro ret _ _
    exact ⟨ret, rfl, by simp⟩
  | cons x xs ih =>
    intro ret hfresh hpw
    by_cases hx : nonIgnoredFile x = true
    · have hfilter : (x :: xs).filter nonIgnoredFile = x :: xs.filter nonIgnoredFile :=
        List.filter_cons_of_pos hx
      rw [hfilter] at hpw
      rcases List.pairwise_cons.mp hpw with ⟨hhead, htail⟩
      have hl : lookupKey (diskKey x) ret = none :=
        hfresh x (List.mem_cons_self _ _) hx
      have hfresh' : ∀ f, f ∈ xs → nonIgnoredFile f = true →
          lookupKey (diskKey f) (ret ++ [(diskKey x, x.path)]) = none := by
        intro f hmem hnf
        have h1 := hfresh f (List.mem_cons_of_mem _ hmem) hnf
        have h2 : diskKey x ≠ diskKey f :=
          hhead f (List.mem_filter.mpr ⟨hmem, hnf⟩)
        exact lookupKey_append_ne x.path h1 h2
      rcases ih (ret ++ [(diskKey x, x.path)]) hfresh' htail with ⟨d, hd, hlen⟩
      refine ⟨d, ?_, ?_⟩
      · rw [genDict_cons_new hx hl]
        exact hd
      · rw [hfilter]
        simp only [List.length_append, List.length_cons, List.length_nil] at hlen ⊢
        omega
    · have hx' : nonIgnoredFile x = false := by
        cases hb : nonIgnoredFile x
        · rfl
        · exact absurd hb hx
      have hfilter : (x :: xs).filter nonIgnoredFile = xs.filter nonIgnoredFile :=
        List.filter_cons_of_neg (by simp [hx'])
      rw [hfilter] at hpw
      have hfresh' : ∀ f, f ∈ xs → nonIgnoredFile f = true →
          lookupKey (diskKey f) ret = none :=
        fun f hmem hnf => hfresh f (List.mem_cons_of_mem _ hmem) hnf
      rcases ih ret hfresh' hpw with ⟨d, hd, hlen⟩
      refine ⟨d, ?_, ?_⟩
      · rw [genDict_cons_skip hx']
        exact hd
      · rw [hfilter]
        exact hlen

/-- C3: when the non-ignored regular files have pairwise-distinct
`(name, size)` keys, `generate_directory_dict` raises nothing and returns a
mapping with exactly one entry per non-ignored file. -/
theorem c3_distinct_keys_build_ok (files : List FSEntry)
    (hdist : (files.filter nonIgnoredFile).Pairwise (fun a b => diskKey a ≠ diskKey b)) :
    ∃ d, generate_directory_dict files = Except.ok d ∧
      d.length = (files.filter nonIgnoredFile).length := by
  rcases genDict_ok_count files [] (fun f _ _ => rfl) hdist with ⟨d, hd, hlen⟩
  exact ⟨d, hd, by simpa using hlen⟩

/-- Witness for C3: two files with distinct names plus one directory entry
and one ignored sidecar give a two-entry mapping. -/
theorem c3_witness :
    ∃ d, generate_directory_dict
        [⟨"a/x.cr3".data, true, 5⟩, ⟨"a/y.cr3".data, true, 5⟩,
          ⟨"a/sub".data, false, 0⟩, ⟨"a/x.xmp".data, true, 3⟩]
      = Except.ok d ∧
      d.length = (([⟨"a/x.cr3".data, true, 5⟩, ⟨"a/y.cr3".data, true, 5⟩,
          ⟨"a/sub".data, false, 0⟩, ⟨"a/x.xmp".data, true, 3⟩] : List FSEntry).filter
            nonIgnoredFile).length :=
  c3_distinct_keys_build_ok _ (by decide)

/-- Every entry of a successfully built dictionary was inserted for a
non-ignored regular file of the walk (or was already in the start state). -/
theorem genDict_ok_mem :
    ∀ (files : List FSEntry) (ret d : List (PhotoNameSizeKey × List Char)),
      genDict ret files = .ok d → ∀ k p, (k, p) ∈ d →
      (k, p) ∈ ret ∨ ∃ f, f ∈ files ∧ nonIgnoredFile f = true ∧
        k = diskKey f ∧ p = f.path := by
  intro files
  induction files with
  | nil =>
    intro ret d h k p hmem
    have hrd : ret = d := by
      have : (Except.ok ret : Except (List Char) (List (PhotoNameSizeKey × List Char)))
          = .ok d := h
      injection this
    left
    rw [hrd]
    exact hmem
  | cons x xs ih =>
    intro ret d h k p hmem
    by_cases hx : nonIgnoredFile x = true
    · rcases hcase : lookupKey (diskKey x) ret with _ | old
      · rw [genDict_cons_new hx hcase] at h
        rcases ih (ret ++ [(diskKey x, x.path)]) d h k p hmem with hin | ⟨f, hf, hnf, hk, hp⟩
        · rcases List.mem_append.mp hin with hin1 | hin2
          · left
            exact hin1
          · right
            have : (k, p) = (diskKey x, x.path) := List.mem_singleton.mp hin2
            have hk : k = diskKey x := by
              have := congrArg Prod.fst this
              simpa using this
            have hp : p = x.path := by
              have := congrArg Prod.snd this
              simpa using this
            exact ⟨x, List.mem_cons_self _ _, hx, hk, hp⟩
        · right
          exact ⟨f, List.mem_cons_of_mem _ hf, hnf, hk, hp⟩
      · rw [genDict_cons_dup hx hcase] at h
        cases h
    · have hx' : nonIgnoredFile x = false := by
        cases hb : nonIgnoredFile x
        · rfl
        · exact absurd hb hx
      rw [genDict_cons_skip hx'] at h
      rcases ih ret d h k p hmem with hin | ⟨f, hf, hnf, hk, hp⟩
      · left
        exact hin
      · right
        exact ⟨f, List.mem_cons_of_mem _ hf, hnf, hk, hp⟩

/-- C6: no entry of a built index is a `.DS_Store` file, a file whose name
ends in `.xmp` in any letter case, or a file under a `.Spotlight-V100/`
directory: all three match the ignore pattern and are filtered out. -/
theorem c6_ignored_never_indexed (files : List FSEntry)
    (d : List (PhotoNameSizeKey × List Char))
    (h : generate_directory_dict files = Except.ok d)
    (k : PhotoNameSizeKey) (p : List Char) (hmem : (k, p) ∈ d) :
    fileName p ≠ ".DS_Store".data ∧ xmpSuffix (fileName p) = false
      ∧ hasSub ".Spotlight-V100/".data p = false := by
  rcases genDict_ok_mem files [] d h k p hmem with hin | ⟨f, _, hnf, _, hp⟩
  · simp at hin
  · have hig : paths_ignore p = false := by
      cases hpi : paths_ignore f.path
      · rw [hp]
        exact hpi
      · rw [nonIgnoredFile, hpi] at hnf
        simp at hnf
    refine ⟨?_, ?_, ?_⟩
    · intro hds
      rw [paths_ignore_of_dsstore hds] at hig
      cases hig
    · cases hxs : xmpSuffix (fileName p)
      · rfl
      · rw [paths_ignore_of_xmp hxs] at hig
        cases hig
    · cases hsp : hasSub ".Spotlight-V100/".data p
      · rfl
      · rw [paths_ignore_of_spotlight hsp] at hig
        cases hig

/-- Witness for C6 on a one-file tree and the entry it produces. -/
theorem c6_witness :
    fileName "a/ok.cr3".data ≠ ".DS_Store".data
      ∧ xmpSuffix (fileName "a/ok.cr3".data) = false
      ∧ hasSub ".Spotlight-V100/".data "a/ok.cr3".data = false :=
  c6_ignored_never_indexed [⟨"a/ok.cr3".data, true, 3⟩]
    [(⟨"ok.cr3".data, 3⟩, "a/ok.cr3".data)] rfl
    ⟨"ok.cr3".data, 3⟩ "a/ok.cr3".data (by decide)

theorem hasSub_dupMessage_left (a b : List Char) :
    hasSub a (dupMessage a b) = true := by
  have h := hasSub_sandwich "Files ".data a
    (" and ".data ++ (b ++ " found with same size and name".data))
  have he : "Files ".data ++ (a ++ (" and ".data
      ++ (b ++ " found with same size and name".data))) = dupMessage a b := by
    simp [dupMessage, List.append_assoc]
  rwa [he] at h

theorem hasSub_dupMessage_right (a b : List Char) :
    hasSub b (dupMessage a b) = true := by
  have h := hasSub_sandwich ("Files ".data ++ a ++ " and ".data) b
    " found with same size and name".data
  have he : ("Files ".data ++ a ++ " and ".data)
      ++ (b ++ " found with same size and name".data) = dupMessage a b := by
    simp [dupMessage, List.append_assoc]
  rwa [he] at h

/-- Any error of the builder is the duplicate-key message for two walked
entries with equal keys (with the start-state entries accounted for by the
`ground` list). -/
theorem genDict_error_named :
    ∀ (files : List FSEntry) (ret : List (PhotoNameSizeKey × List Char))
      (msg : List Char) (ground : List FSEntry),
      (∀ f, f ∈ files → f ∈ ground) →
      (∀ k p, (k, p) ∈ ret → ∃ g, g ∈ ground ∧ diskKey g = k ∧ g.path = p) →
      genDict ret files = .error msg →
      ∃ f g, f ∈ ground ∧ g ∈ ground ∧ diskKey f = diskKey g ∧
        msg = dupMessage f.path g.path := by
  intro files
  induction files with
  | nil =>
    intro ret msg ground _ _ h
    cases h
  | cons x xs ih =>
    intro ret msg ground hground hret h
    by_cases hx : nonIgnoredFile x = true
    · rcases hcase : lookupKey (diskKey x) ret with _ | old
      · rw [genDict_cons_new hx hcase] at h
        have hground' : ∀ f, f ∈ xs → f ∈ ground :=
          fun f hf => hground f (List.mem_cons_of_mem _ hf)
        have hret' : ∀ k p, (k, p) ∈ ret ++ [(diskKey x, x.path)] →
            ∃ g, g ∈ ground ∧ diskKey g = k ∧ g.path = p := by
          intro k p hkp
          rcases List.mem_append.mp hkp with h1 | h2
          · exact hret k p h1
          · have heq : (k, p) = (diskKey x, x.path) := List.mem_singleton.mp h2
            have hk : diskKey x = k := by
              have := congrArg Prod.fst heq
              simp at this
              exact this.symm
            have hp : x.path = p := by
              have := congrArg Prod.snd heq
              simp at this
              exact this.symm
            exact ⟨x, hground x (List.mem_cons_self _ _), hk, hp⟩
        exact ih (ret ++ [(diskKey x, x.path)]) msg ground hground' hret' h
      · rw [genDict_cons_dup hx hcase] at h
        have hmsg : msg = dupMessage x.path old := by
          injection h with h1
          exact h1.symm
        rcases hret (diskKey x) old (lookupKey_mem hcase) with ⟨g, hgm, hgk, hgp⟩
        refine ⟨x, g, hground x (List.mem_cons_self _ _), hgm, hgk.symm, ?_⟩
        rw [hmsg, hgp]
    · have hx' : nonIgnoredFile x = false := by
        cases hb : nonIgnoredFile x
        · rfl
        · exact absurd hb hx
      rw [genDict_cons_skip hx'] at h
      exact ih ret msg ground (fun f hf => hground f (List.mem_cons_of_mem _ hf)) hret h

/-- C8 (amended): when `generate_directory_dict` fails on a duplicate key,
the raised message is the duplicate message for two walked files with equal
keys, and it contains both conflicting paths as substrings (so the shared
file name appears as the final component of each); the shared size value is
not part of the message format. -/
theorem c8_amended_error_names_both_paths (files : List FSEntry) (msg : List Char)
    (h : generate_directory_dict files = Except.error msg) :
    ∃ f g, f ∈ files ∧ g ∈ files ∧ diskKey f = diskKey g ∧
      msg = dupMessage f.path g.path ∧
      hasSub f.path msg = true ∧ hasSub g.path msg = true := by
  rcases genDict_error_named files [] msg files (fun _ hf => hf)
      (by intro k p hp; simp at hp) h with ⟨f, g, hf, hg, hk, hm⟩
  refine ⟨f, g, hf, hg, hk, hm, ?_, ?_⟩
  · rw [hm]
    exact hasSub_dupMessage_left _ _
  · rw [hm]
    exact hasSub_dupMessage_right _ _

/-- Counterexample for C8 as stated: for the colliding files `a/img.jpg` and
`b/img.jpg` of size 7, the raised message names both paths but nowhere the
shared size — the decimal representation `7` does not occur in it. -/
theorem c8_counterexample_size_not_named :
    generate_directory_dict
        [⟨"a/img.jpg".data, true, 7⟩, ⟨"b/img.jpg".data, true, 7⟩]
      = Except.error (dupMessage "b/img.jpg".data "a/img.jpg".data)
    ∧ hasSub (Nat.repr 7).data
        (dupMessage "b/img.jpg".data "a/img.jpg".data) = false :=
  ⟨rfl, by decide⟩

/-- Witness for the amended C8 at a concrete duplicate pair. -/
theorem c8_amended_witness :
    ∃ f g, f ∈ ([⟨"a/z.cr3".data, true, 9⟩, ⟨"b/z.cr3".data, true, 9⟩] : List FSEntry)
      ∧ g ∈ ([⟨"a/z.cr3".data, true, 9⟩, ⟨"b/z.cr3".data, true, 9⟩] : List FSEntry)
      ∧ diskKey f = diskKey g
      ∧ dupMessage "b/z.cr3".data "a/z.cr3".data = dupMessage f.path g.path
      ∧ hasSub f.path (dupMessage "b/z.cr3".data "a/z.cr3".data) = true
      ∧ hasSub g.path (dupMessage "b/z.cr3".data "a/z.cr3".data) = true :=
  c8_amended_error_names_both_paths
    [⟨"a/z.cr3".data, true, 9⟩, ⟨"b/z.cr3".data, true, 9⟩]
    (dupMessage "b/z.cr3".data "a/z.cr3".data) rfl

/-- C5: for a provider value in signed 32-bit range, the corrected size is
the unsigned reinterpretation of the same bit pattern: a negative value `x`
becomes `x + 2^32`, a non-negative value is unchanged. -/
theorem c5_filesize_sign_correction (img : C1Image)
    (h1 : -2147483648 ≤ img.file_size_raw) (h2 : img.file_size_raw < 2147483648) :
    (img.file_size_raw < 0 →
      (C1Image.filesize img : Int) = img.file_size_raw + 4294967296) ∧
    (0 ≤ img.file_size_raw → (C1Image.filesize img : Int) = img.file_size_raw) := by
  unfold C1Image.filesize c_uint32_value c_int32_value
  constructor <;> intro h3 <;> split <;> omega

/-- Witness for C5: a reported `-1` is corrected to `4294967295`, and a
positive 25-megabyte size is unchanged. -/
theorem c5_witness :
    ((C1Image.filesize ⟨"p".data, none, -1, "n".data, "i".data⟩ : Int)
        = -1 + 4294967296)
    ∧ ((C1Image.filesize ⟨"p".data, none, 25000000, "n".data, "i".data⟩ : Int)
        = 25000000) :=
  ⟨(c5_filesize_sign_correction ⟨"p".data, none, -1, "n".data, "i".data⟩
      (by decide) (by decide)).1 (by decide),
   (c5_filesize_sign_correction ⟨"p".data, none, 25000000, "n".data, "i".data⟩
      (by decide) (by decide)).2 (by decide)⟩

/-- The corrected size is always the provider value reduced modulo `2^32`,
hence below `2^32`. -/
theorem filesize_mod (img : C1Image) :
    C1Image.filesize img < 4294967296
      ∧ (C1Image.filesize img : Int) = img.file_size_raw % 4294967296 := by
  constructor <;>
    · unfold C1Image.filesize c_uint32_value c_int32_value
      split <;> omega

/-- With a nonzero corrected size the constructor keeps the passed size and
never touches the file system: the key is `(originalPath.name, filesize)`. -/
theorem photo_name_size_key_of_nonzero {img : C1Image}
    (h : C1Image.filesize img ≠ 0) :
    C1Image.photo_name_size_key img
      = some ⟨fileName img.path, C1Image.filesize img⟩ := by
  unfold C1Image.photo_name_size_key mkPhotoNameSizeKey
  simp [h]

/-- With corrected size 0 and a missing original path, building the key
raises `FileNotFoundError` (the `if size:` guard treats 0 as absent and
falls back to `stat`). -/
theorem photo_name_size_key_zero_crash {img : C1Image}
    (h0 : C1Image.filesize img = 0) (hm : img.statSize = none) :
    C1Image.photo_name_size_key img = none := by
  unfold C1Image.photo_name_size_key mkPhotoNameSizeKey
  simp [h0, hm]

/-- C2 at the failing input: a catalog entry with corrected declared size 0
whose original path is missing, while the index holds a same-named
zero-byte candidate and dry-run is unset.  All conditions of the claim hold
— path missing, matching `(name, corrected size)` key in the index, no
dry-run — yet the iteration aborts without invoking relink:
`photo_name_size_key` stats the missing original path (because `if size:`
treats the passed 0 as absent) and raises `FileNotFoundError`. -/
theorem c2_zero_size_crash :
    C1Image.path_exists (C1Image.mk "old/img.jpg".data none 0 "img.jpg".data "ID1".data) = false
      ∧ (Args.mk false false false false).dryRun = false
      ∧ lookupKey
          ⟨fileName "old/img.jpg".data,
            C1Image.filesize (C1Image.mk "old/img.jpg".data none 0 "img.jpg".data "ID1".data)⟩
          [(PhotoNameSizeKey.mk "img.jpg".data 0, "new/img.jpg".data)]
          = some "new/img.jpg".data
      ∧ processImage (Args.mk false false false false)
          [(PhotoNameSizeKey.mk "img.jpg".data 0, "new/img.jpg".data)]
          (C1Image.mk "old/img.jpg".data none 0 "img.jpg".data "ID1".data) = none := by
  refine ⟨rfl, rfl, by decide, rfl⟩

/-- C7 at the failing input: verbose is set, so the claim requires a log
line for every entry; for an entry with corrected size 0 and a missing
original path the iteration aborts inside `photo_name_size_key` before
classifying or logging anything. -/
theorem c7_zero_size_no_log :
    (Args.mk false false true false).verbose = true
      ∧ processImage (Args.mk false false true false) []
          (C1Image.mk "old/a.cr3".data none 0 "a.cr3".data "ID2".data) = none :=
  ⟨rfl, rfl⟩

/-- For every entry whose corrected size is nonzero the loop body completes,
and it relinks exactly when the original path is missing, a candidate with
the entry's `(name, corrected size)` key is indexed and dry-run is unset —
and then exactly once, to the matched candidate's path. -/
theorem processImage_relink_iff (args : Args)
    (dict : List (PhotoNameSizeKey × List Char)) (img : C1Image)
    (hnz : C1Image.filesize img ≠ 0) :
    ∃ r, processImage args dict img = some r
      ∧ (r.relinks ≠ [] ↔ (C1Image.path_exists img = false ∧ args.dryRun = false
          ∧ lookupKey ⟨fileName img.path, C1Image.filesize img⟩ dict ≠ none))
      ∧ (∀ m, lookupKey ⟨fileName img.path, C1Image.filesize img⟩ dict = some m →
          r.relinks = [] ∨ r.relinks = [m]) := by
  refine ⟨⟨entryLogLine args dict img ⟨fileName img.path, C1Image.filesize img⟩,
          entryRelinks args dict img ⟨fileName img.path, C1Image.filesize img⟩⟩, ?_, ?_, ?_⟩
  · unfold processImage
    rw [photo_name_size_key_of_nonzero hnz]
  · unfold entryRelinks
    rcases hl : lookupKey ⟨fileName img.path, C1Image.filesize img⟩ dict with _ | m
    · simp
    · cases he : C1Image.path_exists img <;> cases hd : args.dryRun <;> simp
  · intro m hm
    unfold entryRelinks
    rw [hm]
    cases he : C1Image.path_exists img <;> cases hd : args.dryRun <;> simp

/-- For every entry whose corrected size is nonzero the loop body completes
and logs exactly when verbose is set or no candidate matched a missing
original; in the latter case the line always contains the corrected size. -/
theorem processImage_log_policy (args : Args)
    (dict : List (PhotoNameSizeKey × List Char)) (img : C1Image)
    (hnz : C1Image.filesize img ≠ 0) :
    ∃ r, processImage args dict img = some r
      ∧ (r.logLine ≠ none ↔ (args.verbose = true
          ∨ (C1Image.path_exists img = false
              ∧ lookupKey ⟨fileName img.path, C1Image.filesize img⟩ dict = none)))
      ∧ (C1Image.path_exists img = false →
          lookupKey ⟨fileName img.path, C1Image.filesize img⟩ dict = none →
          ∃ l, r.logLine = some l
            ∧ hasSub (Nat.repr (C1Image.filesize img)).data l = true) := by
  refine ⟨⟨entryLogLine args dict img ⟨fileName img.path, C1Image.filesize img⟩,
          entryRelinks args dict img ⟨fileName img.path, C1Image.filesize img⟩⟩, ?_, ?_, ?_⟩
  · unfold processImage
    rw [photo_name_size_key_of_nonzero hnz]
  · unfold entryLogLine entryLogParts
    cases he : C1Image.path_exists img
    · rcases hl : lookupKey ⟨fileName img.path, C1Image.filesize img⟩ dict with _ | m
      · cases hv : args.verbose <;> simp
      · cases hv : args.verbose <;> simp
    · cases hv : args.verbose <;> simp
  · intro he hl
    unfold entryLogLine entryLogParts
    rw [he, hl]
    refine ⟨img.name ++ " (ID ".data ++ img.id ++ ")".data
      ++ ("\tNO MATCHING IMAGE FOUND (size ".data
        ++ (Nat.repr (C1Image.filesize img)).data ++ " Bytes)".data), by simp, ?_⟩
    have h := hasSub_sandwich
      (img.name ++ " (ID ".data ++ img.id ++ ")".data
        ++ "\tNO MATCHING IMAGE FOUND (size ".data)
      (Nat.repr (C1Image.filesize img)).data " Bytes)".data
    have he2 : (img.name ++ " (ID ".data ++ img.id ++ ")".data
        ++ "\tNO MATCHING IMAGE FOUND (size ".data)
        ++ ((Nat.repr (C1Image.filesize img)).data ++ " Bytes)".data)
        = img.name ++ " (ID ".data ++ img.id ++ ")".data
          ++ ("\tNO MATCHING IMAGE FOUND (size ".data
            ++ (Nat.repr (C1Image.filesize img)).data ++ " Bytes)".data) := by
      simp [List.append_assoc]
    rwa [he2] at h

theorem entryRelinks_dryRun (args : Args) (dict : List (PhotoNameSizeKey × List Char))
    (img : C1Image) (key : PhotoNameSizeKey) (h : args.dryRun = true) :
    entryRelinks args dict img key = [] := by
  unfold entryRelinks
  rcases hl : lookupKey key dict with _ | m
  · rfl
  · simp [h]

theorem processImage_dryRun_relinks {args : Args}
    {dict : List (PhotoNameSizeKey × List Char)} {img : C1Image} {r : EntryResult}
    (hd : args.dryRun = true) (h : processImage args dict img = some r) :
    r.relinks = [] := by
  unfold processImage at h
  rcases hk : C1Image.photo_name_size_key img with _ | key <;> rw [hk] at h
  · cases h
  · have hr : r = ⟨entryLogLine args dict img key, entryRelinks args dict img key⟩ := by
      injection h with h1
      exact h1.symm
    rw [hr]
    exact entryRelinks_dryRun args dict img key hd

/-- The log line computed for an entry is independent of the dry-run flag. -/
theorem processImage_logLine_no_dryRun (args : Args)
    (dict : List (PhotoNameSizeKey × List Char)) (img : C1Image) :
    Option.map EntryResult.logLine (processImage args dict img)
      = Option.map EntryResult.logLine
          (processImage { args with dryRun := false } dict img) := by
  unfold processImage
  rcases hk : C1Image.photo_name_size_key img with _ | key <;> rfl

theorem relinkCalls_cons (r : EntryResult) (rs : List EntryResult) :
    relinkCalls (r :: rs) = r.relinks ++ relinkCalls rs := rfl

/-- C4: with dry-run set, a whole pass issues no relink call at all, and the
sequence of log lines it prints is exactly that of the non-dry-run pass over
the same entries and index. -/
theorem c4_dryrun_frame (args : Args) (dict : List (PhotoNameSizeKey × List Char))
    (imgs : List C1Image) (h : args.dryRun = true) :
    relinkCalls (runLoop args dict imgs).1 = []
      ∧ (runLoop args dict imgs).1.map EntryResult.logLine
          = (runLoop { args with dryRun := false } dict imgs).1.map EntryResult.logLine := by
  induction imgs with
  | nil => exact ⟨rfl, rfl⟩
  | cons img rest ih =>
    have hmap := processImage_logLine_no_dryRun args dict img
    rcases hp : processImage args dict img with _ | r
    · rw [hp] at hmap
      have hp' : processImage { args with dryRun := false } dict img = none := by
        rcases hq : processImage { args with dryRun := false } dict img with _ | r2
        · rfl
        · rw [hq] at hmap
          cases hmap
      simp [runLoop, hp, hp', relinkCalls]
    · rw [hp] at hmap
      rcases hq : processImage { args with dryRun := false } dict img with _ | r2
      · rw [hq] at hmap
        cases hmap
      · rw [hq] at hmap
        have hlog : r.logLine = r2.logLine := by
          simp only [Option.map] at hmap
          injection hmap
        simp only [runLoop, hp, hq]
        constructor
        · rw [relinkCalls_cons, processImage_dryRun_relinks h hp, List.nil_append]
          exact ih.1
        · simp only [List.map_cons]
          rw [hlog, ih.2]

/-- Witness for C4: one relinkable entry, dry-run set: no relink call, and
the log lines match the non-dry-run pass. -/
theorem c4_witness :
    relinkCalls (runLoop ⟨false, false, true, true⟩
        [(⟨"x.cr3".data, 5⟩, "new/x.cr3".data)]
        [⟨"old/x.cr3".data, none, 5, "x".data, "1".data⟩]).1 = []
      ∧ (runLoop ⟨false, false, true, true⟩
          [(⟨"x.cr3".data, 5⟩, "new/x.cr3".data)]
          [⟨"old/x.cr3".data, none, 5, "x".data, "1".data⟩]).1.map EntryResult.logLine
        = (runLoop { (⟨false, false, true, true⟩ : Args) with dryRun := false }
            [(⟨"x.cr3".data, 5⟩, "new/x.cr3".data)]
            [⟨"old/x.cr3".data, none, 5, "x".data, "1".data⟩]).1.map EntryResult.logLine :=
  c4_dryrun_frame ⟨false, false, true, true⟩
    [(⟨"x.cr3".data, 5⟩, "new/x.cr3".data)]
    [⟨"old/x.cr3".data, none, 5, "x".data, "1".data⟩] rfl

/-- Counterexample for C9 as stated: with both progress flags given, the
`if/elif` chain picks the textual `tqdm` iterator and the graphical one is
not enabled. -/
theorem c9_counterexample_not_additive :
    image_iterator ⟨true, true, false, false⟩ = ProgressIterator.textual
      ∧ image_iterator ⟨true, true, false, false⟩ ≠ ProgressIterator.gui := by
  exact ⟨rfl, by decide⟩

/-- C9 (amended): the progress flags are not additive — `--progress` takes
precedence, and the graphical iterator is selected exactly when
`--progress-gui` is set while `--progress` is not. -/
theorem c9_amended_iterator_selection (args : Args) :
    (args.progress = true → image_iterator args = ProgressIterator.textual)
      ∧ (image_iterator args = ProgressIterator.gui ↔
          (args.progressGui = true ∧ args.progress = false)) := by
  unfold image_iterator
  rcases args with ⟨p, g, v, d⟩
  cases p <;> cases g <;> simp

/-- Witness for the amended C9 with both flags set. -/
theorem c9_amended_witness :
    image_iterator ⟨true, true, false, false⟩ = ProgressIterator.textual :=
  (c9_amended_iterator_selection ⟨true, true, false, false⟩).1 rfl

/-- Counterexample for C10 as stated: a catalog entry whose declared size is
reported as `0` (as happens for a file of exactly `2^32` bytes, whose size
truncates to `0` in 32 bits) and whose original path still exists with
`2^32` bytes gets its key from `stat` — the `if size:` guard of the
constructor discards the corrected `0` — so its key size is the full stat
size and equals the index key of a `2^32`-byte candidate. -/
theorem c10_counterexample_zero_size_fallback :
    C1Image.photo_name_size_key
        (C1Image.mk "old/big.raw".data (some 4294967296) 0 "big.raw".data "B1".data)
      = some (diskKey (FSEntry.mk "new/big.raw".data true 4294967296))
      ∧ 4294967296 ≤ (FSEntry.mk "new/big.raw".data true 4294967296).size :=
  ⟨rfl, by decide⟩

/-- C10 (amended): the corrected size is the provider value truncated modulo
`2^32`, so it lies in `[0, 2^32)`; for every entry with nonzero corrected
size the entry's key carries that corrected size, while the index key of a
file of `2^32` bytes or more carries its full stat size, so the two keys are
never equal.  (An entry with corrected size `0` falls back to the stat size
of its original path and is exempt.) -/
theorem c10_amended_large_files_never_match (img : C1Image) (f : FSEntry)
    (hnz : C1Image.filesize img ≠ 0) (h : 4294967296 ≤ f.size) :
    C1Image.filesize img < 4294967296
      ∧ (C1Image.filesize img : Int) = img.file_size_raw % 4294967296
      ∧ ∀ k, C1Image.photo_name_size_key img = some k → k ≠ diskKey f := by
  refine ⟨(filesize_mod img).1, (filesize_mod img).2, ?_⟩
  intro k hk heq
  rw [photo_name_size_key_of_nonzero hnz] at hk
  have hkk : k = ⟨fileName img.path, C1Image.filesize img⟩ := by
    injection hk with h1
    exact h1.symm
  rw [hkk] at heq
  have hsz : C1Image.filesize img = f.size := congrArg PhotoNameSizeKey.size heq
  have := (filesize_mod img).1
  omega

/-- Witness for the amended C10 at the provider value `-1` and a 4 GiB
file. -/
theorem c10_amended_witness :
    C1Image.filesize ⟨"old/big.raw".data, none, -1, "big.raw".data, "i".data⟩ < 4294967296
      ∧ (C1Image.filesize ⟨"old/big.raw".data, none, -1, "big.raw".data, "i".data⟩ : Int)
          = (-1 : Int) % 4294967296
      ∧ ∀ k, C1Image.photo_name_size_key
            ⟨"old/big.raw".data, none, -1, "big.raw".data, "i".data⟩ = some k →
          k ≠ diskKey ⟨"new/big.raw".data, true, 4294967296⟩ :=
  c10_amended_large_files_never_match
    ⟨"old/big.raw".data, none, -1, "big.raw".data, "i".data⟩
    ⟨"new/big.raw".data, true, 4294967296⟩ (by decide) (by decide)
